import Mathlib

/-!
Shallow embedding of `src/server.cpp` from CarterLi/C-yield: a single-threaded
io_uring HTTP file server driven by fibers.  Pure Lean definitions model the
request parser (`serve`), the file sender (`http_send_file`), the awaited
io_uring primitives (`await_readv` etc., lines 43-76), and the buffer-pool
bookkeeping of the event loop (`acquire` from `main` lines 230-235 and
`cleanFiber`, lines 209-217).  Bytes are modelled as `Char` lists obtained
from Lean string literals; the kernel's completion results are modelled by
the ideal semantics of `pread`/`write` on a regular file and a healthy
socket (a read of a regular file at offset `o` for `n` bytes completes with
`min n (size - o)`; socket reads/writes complete fully).
-/

/-- mirrors `BUF_SIZE = 1024` (src/server.cpp line 21). -/
def BUF_SIZE : Nat := 1024

/-- mirrors the pool capacity: `std::array<iovec, 12> iov_pool` (line 179). -/
def POOL_SIZE : Nat := 12

/-- Modelled from the spec: how a failure leaves the request handler.
`panic op` is the `panic(#operation)` call of the await primitives
(src/server.cpp lines 52 and 71); the spec (section 7) states that this
propagation aborts the whole process (the propagation path itself runs
through the fiber machinery of `yield.hpp`, which is not part of the
sources here).  `thrown what` is a C++ exception raised by library code
inside the handler body, e.g. `std::out_of_range` from
`std::string_view::substr`. -/
inductive Failure where
  | panic (op : String)
  | thrown (what : String)
deriving DecidableEq

/-- One I/O operation issued by the request handler, as visible at the
kernel interface: fixed-buffer ops carry the pool slot, plain ops carry a
caller-owned iovec.  `read` events record the file offset and length. -/
inductive Ev where
  | read_fixed (off len : Nat)
  | write_fixed (len : Nat)
  | readv (off len : Nat)
  | writev (len : Nat)
deriving DecidableEq

/-- byte count requested by an event. -/
def Ev.len : Ev → Nat
  | .read_fixed _ n => n
  | .write_fixed n => n
  | .readv _ n => n
  | .writev n => n

/-- whether the event addresses a registered pool buffer. -/
def Ev.usesPool : Ev → Bool
  | .read_fixed _ _ => true
  | .write_fixed _ => true
  | .readv _ _ => false
  | .writev _ => false

/-- `await_readv` (macro `DEFINE_URING_OP`, lines 43-54, instantiated line 56):
given the completion result injected by the event loop, panic on `res <= 0`,
otherwise return it. -/
def await_readv (res : Int) : Except Failure Int :=
  if res ≤ 0 then Except.error (Failure.panic "readv") else Except.ok res

/-- `await_writev` (macro `DEFINE_URING_OP`, line 57). -/
def await_writev (res : Int) : Except Failure Int :=
  if res ≤ 0 then Except.error (Failure.panic "writev") else Except.ok res

/-- `await_read_fixed` (macro `DEFINE_URING_FIXED_OP`, lines 60-73,
instantiated line 75). -/
def await_read_fixed (res : Int) : Except Failure Int :=
  if res ≤ 0 then Except.error (Failure.panic "read_fixed") else Except.ok res

/-- `await_write_fixed` (macro `DEFINE_URING_FIXED_OP`, line 76). -/
def await_write_fixed (res : Int) : Except Failure Int :=
  if res ≤ 0 then Except.error (Failure.panic "write_fixed") else Except.ok res

/-- ideal completion result of `pread`-style reads on a regular file of
`size` bytes at `offset`: `min nbyte (size - offset)`. -/
def idealPread (size offset nbyte : Nat) : Int := (min nbyte (size - offset) : Nat)

/-- ideal completion result of a socket write: all `nbyte` bytes accepted. -/
def idealWrite (nbyte : Nat) : Int := (nbyte : Nat)

/-- ideal completion result of the request-line read: the bytes that
arrived from the client. -/
def idealRecv (avail : Nat) : Int := (avail : Nat)

/-- `http_404_hdr` (src/server.cpp line 94). -/
def http_404_hdr : List Char := "HTTP/1.1 404 Not Found\r\nContent-Length: 0\r\n\r\n".data

/-- `http_400_hdr` (src/server.cpp line 95). -/
def http_400_hdr : List Char := "HTTP/1.1 400 Bad Request\r\nContent-Length: 0\r\n\r\n".data

/-- the 200 header built by `fmt::format` at src/server.cpp line 111,
with `st.st_size` printed in decimal. -/
def http_200_hdr (n : Nat) : List Char :=
  "HTTP/1.1 200 OK\r\nContent-type: text/plain\r\nContent-Length: ".data
    ++ (toString n).data ++ "\r\n\r\n".data

/-- what `open`+`fstat` can find at a path: nothing openable, something
openable that is not a regular file, or a regular file with its content
(whose length is `st.st_size` at open time).  This models the test
`infd < 0 || fstat(infd, &st) < 0 || !S_ISREG(st.st_mode)` at line 104. -/
inductive FsEntry where
  | absent
  | special
  | regular (content : List Char)
deriving DecidableEq

/-- a snapshot of the filesystem: path bytes to entry. -/
def Fs := List Char → FsEntry

/-- whether the entry is served (regular file). -/
def FsEntry.isRegular : FsEntry → Bool
  | .regular _ => true
  | .absent => false
  | .special => false

/-- the (offset, length) schedule of the read-then-write cycles of
`http_send_file`'s streaming loop (lines 116-124 and 128-136; both
branches use the same arithmetic): full `BUF_SIZE` chunks while
`st.st_size - offset > BUF_SIZE`, then one final chunk of the remaining
`st.st_size - offset` bytes if any. -/
def sendCycles (size offset : Nat) : List (Nat × Nat) :=
  if BUF_SIZE < size - offset then
    (offset, BUF_SIZE) :: sendCycles size (offset + BUF_SIZE)
  else if offset < size then
    [(offset, size - offset)]
  else
    []
termination_by size - offset
decreasing_by
  simp only [BUF_SIZE] at *
  omega

/-- the pooled streaming loop of `http_send_file` (lines 114-124): repeat
`await_read_fixed` / `await_write_fixed` cycles.  Returns the issued events
and the bytes pushed to the socket: the write after each read sends the
bytes the read deposited in the pool slot, i.e. `content[offset, offset+len)`. -/
def sendLoopFixed (content : List Char) (size offset : Nat) :
    Except Failure (List Ev × List Char) := do
  if BUF_SIZE < size - offset then
    let _ ← await_read_fixed (idealPread size offset BUF_SIZE)
    let _ ← await_write_fixed (idealWrite BUF_SIZE)
    let r ← sendLoopFixed content size (offset + BUF_SIZE)
    pure (Ev.read_fixed offset BUF_SIZE :: Ev.write_fixed BUF_SIZE :: r.1,
      (content.drop offset).take BUF_SIZE ++ r.2)
  else if offset < size then
    let _ ← await_read_fixed (idealPread size offset (size - offset))
    let _ ← await_write_fixed (idealWrite (size - offset))
    pure ([Ev.read_fixed offset (size - offset), Ev.write_fixed (size - offset)],
      (content.drop offset).take (size - offset))
  else
    pure ([], [])
termination_by size - offset
decreasing_by
  simp only [BUF_SIZE] at *
  omega

/-- the unpooled streaming loop of `http_send_file` (lines 125-136): same
schedule through `await_readv` / `await_writev` on a stack `iovec`, whose
length is shrunk to `st.st_size - offset` for the final cycle (line 133). -/
def sendLoopPlain (content : List Char) (size offset : Nat) :
    Except Failure (List Ev × List Char) := do
  if BUF_SIZE < size - offset then
    let _ ← await_readv (idealPread size offset BUF_SIZE)
    let _ ← await_writev (idealWrite BUF_SIZE)
    let r ← sendLoopPlain content size (offset + BUF_SIZE)
    pure (Ev.readv offset BUF_SIZE :: Ev.writev BUF_SIZE :: r.1,
      (content.drop offset).take BUF_SIZE ++ r.2)
  else if offset < size then
    let _ ← await_readv (idealPread size offset (size - offset))
    let _ ← await_writev (idealWrite (size - offset))
    pure ([Ev.readv offset (size - offset), Ev.writev (size - offset)],
      (content.drop offset).take (size - offset))
  else
    pure ([], [])
termination_by size - offset
decreasing_by
  simp only [BUF_SIZE] at *
  omega

/-- `http_send_file` (src/server.cpp lines 98-141): open the path; if it is
not an openable regular file, send `http_404_hdr`; otherwise send the 200
header with `st.st_size` and stream the content, through the fixed-buffer
loop when the fiber holds a pool slot (`pool_ptr` non-null, modelled by
`pooled = true`) and the `readv`/`writev` loop otherwise.  Returns the
kernel-visible events and the bytes written to the socket. -/
def http_send_file (fs : Fs) (pooled : Bool) (filename : List Char) :
    Except Failure (List Ev × List Char) := do
  match fs filename with
  | FsEntry.regular content =>
    let hdr := http_200_hdr content.length
    let _ ← await_writev (idealWrite hdr.length)
    let r ← if pooled then sendLoopFixed content content.length 0
            else sendLoopPlain content content.length 0
    pure (Ev.writev hdr.length :: r.1, hdr ++ r.2)
  | _ =>
    let _ ← await_writev (idealWrite http_404_hdr.length)
    pure ([Ev.writev http_404_hdr.length], http_404_hdr)

/-- the request-line check `buf_view.compare(0, 3, "GET") == 0`
(src/server.cpp line 161): `string_view::compare(pos, count, str)` compares
`substr(pos, count)` with `str` for equality of the whole views, and
`substr(0, 3)` is `take 3`.  It holds exactly when the chunk's first three
bytes exist and are `GET`. -/
def sv_compare3 (chunk : List Char) : Bool := chunk.take 3 == "GET".data

/-- `buf_view.find(' ', 4)` (line 163): index of the first space at
position >= 4.  `string_view::find` returns `npos` when there is no such
space, and `substr`'s count argument is clamped to the view length, so the
no-space case is modelled by returning `chunk.length` (`findIdx` returns
the length of the searched suffix when nothing matches). -/
def sv_find_space4 (chunk : List Char) : Nat :=
  4 + (chunk.drop 4).findIdx (fun c => c == ' ')

/-- `buf_view.substr(4, buf_view.find(' ', 4) - 4)` (line 163), defined for
chunks of length >= 4 (shorter chunks make `substr` throw, see `serve`). -/
def extractPath (chunk : List Char) : List Char :=
  (chunk.drop 4).take (sv_find_space4 chunk - 4)

/-- result of one `serve` run: the path handed to `open` (if any), the
kernel-visible events, and the bytes written to the client socket. -/
structure ServeRes where
  opened : Option (List Char)
  evs : List Ev
  out : List Char
deriving DecidableEq

/-- `serve` (src/server.cpp lines 144-171): read the first request chunk
(fixed-buffer read when a pool slot is held, `readv` into a stack buffer
otherwise; the completion result is the chunk length).  If the chunk passes
`compare(0, 3, "GET") == 0`, extract the path with
`substr(4, find(' ', 4) - 4)` — which throws `std::out_of_range` when the
view is shorter than 4 bytes, since `substr`'s `pos > size()` — and hand it
to `http_send_file`; otherwise write `http_400_hdr`. -/
def serve (fs : Fs) (pooled : Bool) (chunk : List Char) : Except Failure ServeRes := do
  let readEv := if pooled then Ev.read_fixed 0 chunk.length else Ev.readv 0 chunk.length
  let _ ← if pooled then await_read_fixed (idealRecv chunk.length)
          else await_readv (idealRecv chunk.length)
  if sv_compare3 chunk then
    if chunk.length < 4 then
      Except.error (Failure.thrown "out_of_range")
    else
      let file := extractPath chunk
      let r ← http_send_file fs pooled file
      pure ⟨some file, readEv :: r.1, r.2⟩
  else
    let _ ← await_writev (idealWrite http_400_hdr.length)
    pure ⟨none, [readEv, Ev.writev http_400_hdr.length], http_400_hdr⟩

/-- bytes `serve` writes to the socket, `none` when it does not complete
normally. -/
def servedOut (fs : Fs) (pooled : Bool) (chunk : List Char) : Option (List Char) :=
  match serve fs pooled chunk with
  | Except.ok r => some r.out
  | Except.error _ => none

/-- path `serve` hands to `open`, `none` when it does not reach
`http_send_file` or does not complete normally. -/
def servedOpened (fs : Fs) (pooled : Bool) (chunk : List Char) : Option (List Char) :=
  match serve fs pooled chunk with
  | Except.ok r => r.opened
  | Except.error _ => none

/-- events `serve` issues, `none` when it does not complete normally. -/
def servedEvs (fs : Fs) (pooled : Bool) (chunk : List Char) : Option (List Ev) :=
  match serve fs pooled chunk with
  | Except.ok r => some r.evs
  | Except.error _ => none

/-- events `http_send_file` issues, `none` when it does not complete
normally. -/
def sendEvents (fs : Fs) (pooled : Bool) (filename : List Char) : Option (List Ev) :=
  match http_send_file fs pooled filename with
  | Except.ok r => some r.1
  | Except.error _ => none

/-- bytes `http_send_file` writes to the socket, `none` when it does not
complete normally. -/
def sendOutput (fs : Fs) (pooled : Bool) (filename : List Char) : Option (List Char) :=
  match http_send_file fs pooled filename with
  | Except.ok r => some r.2
  | Except.error _ => none

/-- buffer-pool state of the event loop: `free` is `available_buffers`
(src/server.cpp line 182), a `std::set` of slot pointers modelled by slot
indices; `leased` is the (ghost) set of slots currently held by live fiber
instances through their `localData.pool_ptr`. -/
structure PoolState where
  free : Finset (Fin POOL_SIZE)
  leased : Finset (Fin POOL_SIZE)
deriving DecidableEq

/-- pool state after `main`'s setup loop (lines 183-186): every slot free,
none leased. -/
def initState : PoolState := ⟨Finset.univ, ∅⟩

/-- the acquisition step of the accept path (src/server.cpp lines 230-235):
if `available_buffers` is non-empty, take `*available_buffers.begin()` —
the least element, since `std::set` iterates in key order and the slot
pointers `&buffers[i]` are ordered by index (see `slotAddr`) — erase it
from the free set and lease it to the new fiber; otherwise the fiber's
`pool_ptr` stays null. -/
def acquire (s : PoolState) : Option (Fin POOL_SIZE) × PoolState :=
  if h : s.free.Nonempty then
    (some (s.free.min' h), ⟨s.free.erase (s.free.min' h), insert (s.free.min' h) s.leased⟩)
  else
    (none, s)

/-- `cleanFiber` (src/server.cpp lines 209-217): on fiber termination,
re-insert its leased slot (if it held one) into `available_buffers`. -/
def cleanFiber (s : PoolState) (held : Option (Fin POOL_SIZE)) : PoolState :=
  match held with
  | some b => ⟨insert b s.free, s.leased.erase b⟩
  | none => s

/-- the pool-state transitions of the event loop (lines 218-249): an accept
runs the acquisition step; a fiber that terminates runs `cleanFiber` with
the slot it held (a member of `leased`) or with nothing. -/
inductive Step : PoolState → PoolState → Prop where
  | accept (s : PoolState) : Step s (acquire s).2
  | clean (s : PoolState) (b : Fin POOL_SIZE) (hb : b ∈ s.leased) :
      Step s (cleanFiber s (some b))
  | cleanNone (s : PoolState) : Step s (cleanFiber s none)

/-- pool states the event loop can reach from startup. -/
def Reachable (s : PoolState) : Prop := Relation.ReflTransGen Step initState s

/-- address of slot `i`: the pool is one contiguous
`std::vector<std::array<char, BUF_SIZE>>`, so `&buffers[i]` is the base
address plus `i * BUF_SIZE` (src/server.cpp lines 33 and 180). -/
def slotAddr (base : Nat) (i : Fin POOL_SIZE) : Nat := base + BUF_SIZE * i.val

/-- a filesystem with nothing in it. -/
def fsAbsent : Fs := fun _ => FsEntry.absent

/-- partition invariant of the buffer pool: the free set and the leased
set cover all slots and never overlap. -/
def PoolInv (s : PoolState) : Prop :=
  s.free ∪ s.leased = Finset.univ ∧ Disjoint s.free s.leased

/-- a filesystem with a single two-byte regular file at path `f`. -/
def fs1 : Fs := fun p => if p = "f".data then FsEntry.regular "ab".data else FsEntry.absent

/-- a filesystem with a `BUF_SIZE`-byte regular file at `big` and an empty
regular file at `empty`. -/
def fs7 : Fs := fun p =>
  if p = "big".data then FsEntry.regular (List.replicate BUF_SIZE 'a')
  else if p = "empty".data then FsEntry.regular []
  else FsEntry.absent

/-- the first pool slot. -/
def slot0 : Fin POOL_SIZE := ⟨0, by simp [POOL_SIZE]⟩

theorem sendLoopFixed_ok (content : List Char) (size offset : Nat) (h : content.length = size) :
    sendLoopFixed content size offset = Except.ok
      ((sendCycles size offset).flatMap (fun c => [Ev.read_fixed c.1 c.2, Ev.write_fixed c.2]),
       content.drop offset) := by
  induction offset using sendCycles.induct size with
  | case1 x hlt ih =>
    have h1 : ¬ idealPread size x BUF_SIZE ≤ 0 := by
      simp only [idealPread, BUF_SIZE] at *; omega
    have h2 : ¬ idealWrite BUF_SIZE ≤ 0 := by
      simp only [idealWrite, BUF_SIZE]; omega
    rw [sendLoopFixed, sendCycles]
    simp only [if_pos hlt, await_read_fixed, await_write_fixed, if_neg h1, if_neg h2, ih,
      List.flatMap_cons, pure, Except.pure]
    refine congrArg Except.ok (Prod.ext rfl ?_)
    rw [← List.take_append_drop BUF_SIZE (content.drop x), List.drop_drop]
    simp [Nat.add_comm]
  | case2 x hlt hpos =>
    have h1 : ¬ idealPread size x (size - x) ≤ 0 := by
      simp only [idealPread]; omega
    have h2 : ¬ idealWrite (size - x) ≤ 0 := by
      simp only [idealWrite]; omega
    rw [sendLoopFixed, sendCycles]
    simp only [if_neg hlt, if_pos hpos, await_read_fixed, await_write_fixed, if_neg h1, if_neg h2,
      List.flatMap_cons, List.flatMap_nil, pure, Except.pure]
    refine congrArg Except.ok (Prod.ext rfl ?_)
    apply List.take_of_length_le
    simp [h]
  | case3 x hlt hpos =>
    rw [sendLoopFixed, sendCycles]
    simp only [if_neg hlt, if_neg hpos, List.flatMap_nil, pure, Except.pure]
    refine congrArg Except.ok (Prod.ext rfl ?_)
    rw [List.drop_eq_nil_of_le]
    omega

theorem sendLoopPlain_ok (content : List Char) (size offset : Nat) (h : content.length = size) :
    sendLoopPlain content size offset = Except.ok
      ((sendCycles size offset).flatMap (fun c => [Ev.readv c.1 c.2, Ev.writev c.2]),
       content.drop offset) := by
  induction offset using sendCycles.induct size with
  | case1 x hlt ih =>
    have h1 : ¬ idealPread size x BUF_SIZE ≤ 0 := by
      simp only [idealPread, BUF_SIZE] at *; omega
    have h2 : ¬ idealWrite BUF_SIZE ≤ 0 := by
      simp only [idealWrite, BUF_SIZE]; omega
    rw [sendLoopPlain, sendCycles]
    simp only [if_pos hlt, await_readv, await_writev, if_neg h1, if_neg h2, ih,
      List.flatMap_cons, pure, Except.pure]
    refine congrArg Except.ok (Prod.ext rfl ?_)
    rw [← List.take_append_drop BUF_SIZE (content.drop x), List.drop_drop]
    simp [Nat.add_comm]
  | case2 x hlt hpos =>
    have h1 : ¬ idealPread size x (size - x) ≤ 0 := by
      simp only [idealPread]; omega
    have h2 : ¬ idealWrite (size - x) ≤ 0 := by
      simp only [idealWrite]; omega
    rw [sendLoopPlain, sendCycles]
    simp only [if_neg hlt, if_pos hpos, await_readv, await_writev, if_neg h1, if_neg h2,
      List.flatMap_cons, List.flatMap_nil, pure, Except.pure]
    refine congrArg Except.ok (Prod.ext rfl ?_)
    apply List.take_of_length_le
    simp [h]
  | case3 x hlt hpos =>
    rw [sendLoopPlain, sendCycles]
    simp only [if_neg hlt, if_neg hpos, List.flatMap_nil, pure, Except.pure]
    refine congrArg Except.ok (Prod.ext rfl ?_)
    rw [List.drop_eq_nil_of_le]
    omega

theorem http_200_hdr_length_pos (n : Nat) : 0 < (http_200_hdr n).length := by
  simp [http_200_hdr]

theorem http_send_file_regular (fs : Fs) (pooled : Bool) (filename content : List Char)
    (hr : fs filename = FsEntry.regular content) :
    http_send_file fs pooled filename = Except.ok
      (Ev.writev (http_200_hdr content.length).length ::
        (sendCycles content.length 0).flatMap
          (fun c => if pooled then [Ev.read_fixed c.1 c.2, Ev.write_fixed c.2]
                    else [Ev.readv c.1 c.2, Ev.writev c.2]),
       http_200_hdr content.length ++ content) := by
  have hw : ¬ idealWrite (http_200_hdr content.length).length ≤ 0 := by
    have := http_200_hdr_length_pos content.length
    simp only [idealWrite]
    omega
  rw [http_send_file, hr]
  cases pooled with
  | true =>
    simp only [if_pos, await_writev, if_neg hw,
      sendLoopFixed_ok content content.length 0 rfl, List.drop_zero, pure, Except.pure,
      if_true]
    refine congrArg Except.ok (Prod.ext ?_ rfl)
    simp
  | false =>
    simp only [await_writev, if_neg hw,
      sendLoopPlain_ok content content.length 0 rfl, List.drop_zero, pure, Except.pure,
      if_false]
    refine congrArg Except.ok (Prod.ext ?_ rfl)
    simp

theorem http_send_file_regular_pooled (fs : Fs) (filename content : List Char)
    (hr : fs filename = FsEntry.regular content) :
    http_send_file fs true filename = Except.ok
      (Ev.writev (http_200_hdr content.length).length ::
        (sendCycles content.length 0).flatMap
          (fun c => [Ev.read_fixed c.1 c.2, Ev.write_fixed c.2]),
       http_200_hdr content.length ++ content) := by
  simpa using http_send_file_regular fs true filename content hr

theorem http_send_file_regular_plain (fs : Fs) (filename content : List Char)
    (hr : fs filename = FsEntry.regular content) :
    http_send_file fs false filename = Except.ok
      (Ev.writev (http_200_hdr content.length).length ::
        (sendCycles content.length 0).flatMap
          (fun c => [Ev.readv c.1 c.2, Ev.writev c.2]),
       http_200_hdr content.length ++ content) := by
  simpa using http_send_file_regular fs false filename content hr

theorem take_findIdx_eq_takeWhile (l : List Char) :
    l.take (l.findIdx (fun c => c == ' ')) = l.takeWhile (fun c => c != ' ') := by
  induction l with
  | nil => rfl
  | cons a t ih =>
    by_cases ha : a = ' '
    · subst ha
      simp [List.findIdx_cons, List.takeWhile_cons]
    · have hb : (a == ' ') = false := by simp [ha]
      simp [List.findIdx_cons, List.takeWhile_cons, hb, ih, ha]

theorem extractPath_eq_takeWhile (chunk : List Char) :
    extractPath chunk = (chunk.drop 4).takeWhile (fun c => c != ' ') := by
  rw [extractPath, sv_find_space4]
  rw [Nat.add_sub_cancel_left]
  exact take_findIdx_eq_takeWhile _

theorem takeWhile_append_space (path rest : List Char) (hp : ∀ c ∈ path, c ≠ ' ') :
    (path ++ ' ' :: rest).takeWhile (fun c => c != ' ') = path := by
  induction path with
  | nil => simp [List.takeWhile_cons]
  | cons a t ih =>
    have ha : a ≠ ' ' := hp a (List.mem_cons_self a t)
    simp only [List.cons_append, List.takeWhile_cons]
    simp [ha, ih (fun c hc => hp c (List.mem_cons_of_mem a hc))]

theorem sv_compare3_GET (path rest : List Char) :
    sv_compare3 ("GET ".data ++ path ++ ' ' :: rest) = true := by
  rfl

theorem extractPath_GET (path rest : List Char) (hp : ∀ c ∈ path, c ≠ ' ') :
    extractPath ("GET ".data ++ path ++ ' ' :: rest) = path := by
  rw [extractPath_eq_takeWhile]
  have hdrop : ("GET ".data ++ path ++ ' ' :: rest).drop 4 = path ++ ' ' :: rest := by
    simp [List.append_assoc]
  rw [hdrop]
  exact takeWhile_append_space path rest hp

theorem serve_GET (fs : Fs) (pooled : Bool) (path content rest : List Char)
    (hp : ∀ c ∈ path, c ≠ ' ') (hr : fs path = FsEntry.regular content) :
    serve fs pooled ("GET ".data ++ path ++ ' ' :: rest) = Except.ok
      ⟨some path,
       (if pooled then Ev.read_fixed 0 ("GET ".data ++ path ++ ' ' :: rest).length
        else Ev.readv 0 ("GET ".data ++ path ++ ' ' :: rest).length) ::
         Ev.writev (http_200_hdr content.length).length ::
         (sendCycles content.length 0).flatMap
           (fun c => if pooled then [Ev.read_fixed c.1 c.2, Ev.write_fixed c.2]
                     else [Ev.readv c.1 c.2, Ev.writev c.2]),
       http_200_hdr content.length ++ content⟩ := by
  have hlen : ("GET ".data ++ path ++ ' ' :: rest).length = path.length + rest.length + 5 := by
    simp [List.length_append]
    omega
  have hrecv : ¬ idealRecv ("GET ".data ++ path ++ ' ' :: rest).length ≤ 0 := by
    simp only [idealRecv, hlen]
    omega
  have hguard : sv_compare3 ("GET ".data ++ path ++ ' ' :: rest) = true :=
    sv_compare3_GET path rest
  have hnot4 : ¬ ("GET ".data ++ path ++ ' ' :: rest).length < 4 := by
    omega
  rw [serve]
  cases pooled with
  | true =>
    simp only [if_true, await_read_fixed, if_neg hrecv, bind, Except.bind, hguard, if_true,
      if_neg hnot4, extractPath_GET path rest hp,
      http_send_file_regular fs true path content hr, pure, Except.pure]
  | false =>
    simp only [if_false, await_readv, if_neg hrecv, bind, Except.bind, hguard, if_true,
      if_neg hnot4, extractPath_GET path rest hp,
      http_send_file_regular fs false path content hr, pure, Except.pure]
    simp

theorem sendCycles_zero : sendCycles 0 0 = [] := by
  rw [sendCycles]
  simp

theorem sendCycles_mul (offset k : Nat) (hk : 0 < k) :
    sendCycles (offset + k * BUF_SIZE) offset =
      (List.range k).map (fun i => (offset + i * BUF_SIZE, BUF_SIZE)) := by
  induction k generalizing offset with
  | zero => omega
  | succ k ih =>
    rcases Nat.eq_zero_or_pos k with hk0 | hk0
    · subst hk0
      rw [sendCycles]
      have h1 : ¬ BUF_SIZE < offset + 1 * BUF_SIZE - offset := by omega
      have h2 : offset < offset + 1 * BUF_SIZE := by
        simp only [BUF_SIZE]
        omega
      simp [if_neg h1, if_pos h2, BUF_SIZE, List.range_succ]
    · rw [sendCycles]
      have h1 : BUF_SIZE < offset + (k + 1) * BUF_SIZE - offset := by
        simp only [BUF_SIZE] at *
        omega
      have harith : offset + (k + 1) * BUF_SIZE = (offset + BUF_SIZE) + k * BUF_SIZE := by ring
      rw [if_pos h1, harith, ih (offset + BUF_SIZE) hk0]
      rw [List.range_succ_eq_map]
      simp only [List.map_cons, List.map_map]
      refine congrArg₂ List.cons (by simp) ?_
      refine List.map_congr_left ?_
      intro i _
      simp only [Function.comp_apply]
      refine congrArg₂ Prod.mk ?_ rfl
      rw [Nat.succ_eq_add_one]
      ring

theorem sendCycles_len_pos (size offset : Nat) :
    ∀ c ∈ sendCycles size offset, 0 < c.2 := by
  induction offset using sendCycles.induct size with
  | case1 x hlt ih =>
    rw [sendCycles]
    simp only [if_pos hlt, List.mem_cons]
    rintro c (rfl | hc)
    · simp only [BUF_SIZE]
      omega
    · exact ih c hc
  | case2 x hlt hpos =>
    rw [sendCycles]
    simp only [if_neg hlt, if_pos hpos, List.mem_singleton]
    rintro c rfl
    simp only
    omega
  | case3 x hlt hpos =>
    rw [sendCycles]
    simp [if_neg hlt, if_neg hpos]

theorem serve_non_GET (fs : Fs) (pooled : Bool) (chunk : List Char)
    (hne : chunk ≠ []) (hg : chunk.take 3 ≠ "GET".data) :
    serve fs pooled chunk = Except.ok
      ⟨none,
       [(if pooled then Ev.read_fixed 0 chunk.length else Ev.readv 0 chunk.length),
        Ev.writev http_400_hdr.length],
       http_400_hdr⟩ := by
  have hrecv : ¬ idealRecv chunk.length ≤ 0 := by
    have : 0 < chunk.length := List.length_pos.mpr hne
    simp only [idealRecv]
    omega
  have h400 : ¬ idealWrite http_400_hdr.length ≤ 0 := by
    simp only [idealWrite]
    decide
  have hguard : sv_compare3 chunk = false := by
    simp only [sv_compare3, beq_eq_false_iff_ne, ne_eq]
    exact hg
  rw [serve]
  cases pooled with
  | true =>
    simp only [if_true, await_read_fixed, if_neg hrecv, bind, Except.bind, hguard,
      await_writev, if_neg h400, pure, Except.pure, if_false]
    simp
  | false =>
    simp only [if_false, await_readv, if_neg hrecv, bind, Except.bind, hguard,
      await_writev, if_neg h400, pure, Except.pure]
    simp
theorem inv_init : PoolInv initState := by
  constructor
  · simp [initState]
  · simp [initState]

theorem inv_step {s t : PoolState} (hs : PoolInv s) (hstep : Step s t) : PoolInv t := by
  obtain ⟨hu, hd⟩ := hs
  cases hstep with
  | accept =>
    rw [acquire]
    by_cases h : s.free.Nonempty
    · simp only [dif_pos h]
      have hmem : s.free.min' h ∈ s.free := Finset.min'_mem s.free h
      constructor
      · have : s.free.erase (s.free.min' h) ∪ insert (s.free.min' h) s.leased =
            insert (s.free.min' h) (s.free.erase (s.free.min' h)) ∪ s.leased := by
          rw [Finset.union_insert, Finset.insert_union]
        rw [this, Finset.insert_erase hmem, hu]
      · rw [Finset.disjoint_left]
        intro a ha hb
        have ha' := Finset.mem_of_mem_erase ha
        have hane : a ≠ s.free.min' h := Finset.ne_of_mem_erase ha
        rcases Finset.mem_insert.mp hb with h1 | h1
        · exact hane h1
        · exact (Finset.disjoint_left.mp hd ha') h1
    · simp only [dif_neg h]
      exact ⟨hu, hd⟩
  | clean b hb =>
    rw [cleanFiber]
    have hbf : b ∉ s.free := Finset.disjoint_right.mp hd hb
    constructor
    · rw [Finset.insert_union]
      rw [show insert b (s.free ∪ s.leased.erase b) = s.free ∪ insert b (s.leased.erase b) by
        rw [Finset.union_insert]]
      rw [Finset.insert_erase hb, hu]
    · rw [Finset.disjoint_left]
      intro a ha hb'
      rcases Finset.mem_insert.mp ha with h1 | h1
      · exact (Finset.not_mem_erase a s.leased) (h1 ▸ hb')
      · exact (Finset.disjoint_left.mp hd h1) (Finset.mem_of_mem_erase hb')
  | cleanNone =>
    exact ⟨hu, hd⟩

theorem inv_reachable {s : PoolState} (h : Reachable s) : PoolInv s := by
  induction h with
  | refl => exact inv_init
  | tail hsteps hstep ih => exact inv_step ih hstep

theorem acquire_mem_free {s : PoolState} {b : Fin POOL_SIZE}
    (h : (acquire s).1 = some b) : b ∈ s.free := by
  rw [acquire] at h
  by_cases hne : s.free.Nonempty
  · simp only [dif_pos hne] at h
    have := Option.some.inj h
    exact this ▸ Finset.min'_mem s.free hne
  · simp [dif_neg hne] at h

theorem http_send_file_404 (fs : Fs) (pooled : Bool) (filename : List Char)
    (h : (fs filename).isRegular = false) :
    http_send_file fs pooled filename =
      Except.ok ([Ev.writev http_404_hdr.length], http_404_hdr) := by
  have h404 : ¬ idealWrite http_404_hdr.length ≤ 0 := by
    simp only [idealWrite]
    decide
  rw [http_send_file]
  cases hfs : fs filename with
  | regular c =>
    rw [hfs] at h
    simp [FsEntry.isRegular] at h
  | absent =>
    simp only [await_writev, if_neg h404, bind, Except.bind, pure, Except.pure]
  | special =>
    simp only [await_writev, if_neg h404, bind, Except.bind, pure, Except.pure]

theorem servedOpened_GET (fs : Fs) (pooled : Bool) (chunk : List Char)
    (hg : sv_compare3 chunk = true) (h4 : 4 ≤ chunk.length) :
    servedOpened fs pooled chunk = some (extractPath chunk) := by
  have hrecv : ¬ idealRecv chunk.length ≤ 0 := by
    simp only [idealRecv]
    omega
  have hnot4 : ¬ chunk.length < 4 := by omega
  rw [servedOpened, serve]
  have hsend : ∃ r, http_send_file fs pooled (extractPath chunk) = Except.ok r := by
    rcases hfs : fs (extractPath chunk) with _ | _ | c
    · exact ⟨_, http_send_file_404 fs pooled (extractPath chunk) (by rw [hfs]; rfl)⟩
    · exact ⟨_, http_send_file_404 fs pooled (extractPath chunk) (by rw [hfs]; rfl)⟩
    · exact ⟨_, http_send_file_regular fs pooled (extractPath chunk) c hfs⟩
  obtain ⟨r, hr⟩ := hsend
  cases pooled with
  | true =>
    simp only [if_true, await_read_fixed, if_neg hrecv, bind, Except.bind, hg,
      eq_self_iff_true, if_true, if_neg hnot4, hr, pure, Except.pure]
  | false =>
    simp only [if_false, await_readv, if_neg hrecv, bind, Except.bind, hg,
      eq_self_iff_true, if_true, if_neg hnot4, hr, pure, Except.pure]
    simp
/-- C1: for every request chunk of the form `GET <path> <rest>` where `path`
names an existing regular file, `http_send_file` (reached through `serve`)
sends the 200 header whose Content-Length is the file's byte count at open
time followed by exactly the file's bytes, and the bytes sent are identical
whether the connection holds a pool slot (fixed-buffer branch) or not
(stack-buffer readv/writev branch). -/
theorem c1_transport_transparent (fs : Fs) (path content rest : List Char)
    (hp : ∀ c ∈ path, c ≠ ' ') (hr : fs path = FsEntry.regular content) :
    servedOut fs true ("GET ".data ++ path ++ ' ' :: rest) =
      some (http_200_hdr content.length ++ content) ∧
    servedOut fs false ("GET ".data ++ path ++ ' ' :: rest) =
      servedOut fs true ("GET ".data ++ path ++ ' ' :: rest) := by
  have ht := serve_GET fs true path content rest hp hr
  have hf := serve_GET fs false path content rest hp hr
  constructor
  · rw [servedOut, ht]
  · rw [servedOut, servedOut, ht, hf]

/-- witness for C1 at a concrete filesystem and request. -/
theorem c1_witness :
    servedOut fs1 true ("GET ".data ++ "f".data ++ ' ' :: "HTTP/1.1".data) =
      some (http_200_hdr ("ab".data).length ++ "ab".data) ∧
    servedOut fs1 false ("GET ".data ++ "f".data ++ ' ' :: "HTTP/1.1".data) =
      servedOut fs1 true ("GET ".data ++ "f".data ++ ' ' :: "HTTP/1.1".data) :=
  c1_transport_transparent fs1 "f".data "ab".data "HTTP/1.1".data (by decide) rfl

/-- C2 counterexample: the chunk `GETT /a ` does not begin with the four
bytes `GET ` yet `serve` does not answer 400 — `compare(0, 3, "GET")` only
checks three bytes, so the chunk enters the GET branch and gets a 404. -/
theorem c2_counterexample :
    "GETT /a ".data.take 4 ≠ "GET ".data ∧
    servedOut fsAbsent true "GETT /a ".data = some http_404_hdr ∧
    some http_404_hdr ≠ some http_400_hdr := by
  refine ⟨by decide, by decide, by decide⟩

/-- C2 (amended): for every non-empty first chunk whose first three bytes
are not `GET`, `serve` writes exactly the fixed 400 response with no body
(an empty chunk instead panics on the `res <= 0` check of the request
read); for chunks that do begin with the four bytes `GET ` the substring
from index 4 up to the next space is the target identifier handed to
`http_send_file`. -/
theorem c2_amended (fs : Fs) (pooled : Bool) (chunk : List Char) :
    (chunk ≠ [] → chunk.take 3 ≠ "GET".data →
      servedOut fs pooled chunk = some http_400_hdr) ∧
    (chunk.take 4 = "GET ".data →
      servedOpened fs pooled chunk = some (extractPath chunk) ∧
      extractPath chunk = (chunk.drop 4).takeWhile (fun c => c != ' ')) := by
  constructor
  · intro hne hg
    rw [servedOut, serve_non_GET fs pooled chunk hne hg]
  · intro h4
    have hlen4 : 4 ≤ chunk.length := by
      have : (chunk.take 4).length = 4 := by rw [h4]; rfl
      simp [List.length_take] at this
      omega
    have hg : sv_compare3 chunk = true := by
      have h3 : chunk.take 3 = "GET".data := by
        have : chunk.take 3 = (chunk.take 4).take 3 := by
          rw [List.take_take]
          norm_num
        rw [this, h4]
        rfl
      simp [sv_compare3, h3]
    exact ⟨servedOpened_GET fs pooled chunk hg hlen4, extractPath_eq_takeWhile chunk⟩

/-- witness for C2 at concrete 400 and GET requests. -/
theorem c2_witness :
    servedOut fsAbsent true "POST /x ".data = some http_400_hdr ∧
    (servedOpened fsAbsent true "GET /a ".data = some (extractPath "GET /a ".data) ∧
      extractPath "GET /a ".data = ("GET /a ".data.drop 4).takeWhile (fun c => c != ' ')) :=
  ⟨(c2_amended fsAbsent true "POST /x ".data).1 (by decide) (by decide),
   (c2_amended fsAbsent true "GET /a ".data).2 (by decide)⟩

/-- C4: for each of the four awaited I/O primitives, a completion result
less than or equal to zero invokes `panic` — which aborts the whole
process, not merely the issuing connection — and a positive result is
returned to the coroutine body unchanged. -/
theorem c4_io_failure_aborts (res : Int) :
    (res ≤ 0 →
      await_readv res = Except.error (Failure.panic "readv") ∧
      await_writev res = Except.error (Failure.panic "writev") ∧
      await_read_fixed res = Except.error (Failure.panic "read_fixed") ∧
      await_write_fixed res = Except.error (Failure.panic "write_fixed")) ∧
    (0 < res →
      await_readv res = Except.ok res ∧
      await_writev res = Except.ok res ∧
      await_read_fixed res = Except.ok res ∧
      await_write_fixed res = Except.ok res) := by
  constructor
  · intro h
    simp [await_readv, await_writev, await_read_fixed, await_write_fixed, h]
  · intro h
    have h' : ¬ res ≤ 0 := by omega
    simp [await_readv, await_writev, await_read_fixed, await_write_fixed, h']

/-- witness for C4 at the concrete results -1 and 5. -/
theorem c4_witness :
    (await_readv (-1) = Except.error (Failure.panic "readv") ∧
      await_writev (-1) = Except.error (Failure.panic "writev") ∧
      await_read_fixed (-1) = Except.error (Failure.panic "read_fixed") ∧
      await_write_fixed (-1) = Except.error (Failure.panic "write_fixed")) ∧
    (await_readv 5 = Except.ok 5 ∧
      await_writev 5 = Except.ok 5 ∧
      await_read_fixed 5 = Except.ok 5 ∧
      await_write_fixed 5 = Except.ok 5) :=
  ⟨(c4_io_failure_aborts (-1)).1 (by decide), (c4_io_failure_aborts 5).2 (by decide)⟩

/-- C6: for every target that cannot be opened or is not a regular file,
`http_send_file` writes exactly the fixed 404 header with no body and
completes normally (an `Except.ok` result, never the process-aborting
`Except.error`). -/
theorem c6_not_found (fs : Fs) (pooled : Bool) (filename : List Char)
    (h : (fs filename).isRegular = false) :
    http_send_file fs pooled filename =
      Except.ok ([Ev.writev http_404_hdr.length], http_404_hdr) :=
  http_send_file_404 fs pooled filename h

/-- witness for C6 at a concrete missing file. -/
theorem c6_witness :
    http_send_file fsAbsent true "missing".data =
      Except.ok ([Ev.writev http_404_hdr.length], http_404_hdr) :=
  c6_not_found fsAbsent true "missing".data rfl

/-- C8: the three-byte chunk `GET` passes the prefix comparison of
`serve`, yet its length is below the in-bounds precondition of
`substr(4, ...)`, so the extraction throws `std::out_of_range`: the bound
`chunk.length >= 4` is not established before the substring is taken. -/
theorem c8_get_without_space_out_of_bounds :
    sv_compare3 "GET".data = true ∧
    "GET".data.length < 4 ∧
    serve fsAbsent true "GET".data = Except.error (Failure.thrown "out_of_range") ∧
    serve fsAbsent false "GET".data = Except.error (Failure.thrown "out_of_range") := by
  refine ⟨by decide, by decide, rfl, rfl⟩

/-- C9: the target identifier of a GET request — the bytes from index 4
up to the next space — is passed verbatim to `open` as the filesystem
path: no normalization, docroot prefixing, or rejection of absolute or
dot-dot components happens on the way. -/
theorem c9_path_verbatim (fs : Fs) (pooled : Bool) (chunk : List Char)
    (hg : sv_compare3 chunk = true) (h4 : 4 ≤ chunk.length) :
    servedOpened fs pooled chunk = some ((chunk.drop 4).takeWhile (fun c => c != ' ')) := by
  rw [← extractPath_eq_takeWhile]
  exact servedOpened_GET fs pooled chunk hg h4

/-- witness for C9: a traversal path `../../etc/passwd` is opened
verbatim. -/
theorem c9_witness :
    servedOpened fsAbsent true "GET ../../etc/passwd HTTP/1.1".data =
      some ("../../etc/passwd".data) :=
  c9_path_verbatim fsAbsent true "GET ../../etc/passwd HTTP/1.1".data (by decide) (by decide)

/-- C3: in every reachable state of the event loop the free set and the
set of leased slots partition the 12 pool slots; acquisition removes the
chosen slot from the free set (and it is leased) before the coroutine
runs; cleanup re-inserts a leased slot exactly once (the slot is not
already free, and after `cleanFiber` it is free and no longer leased); and
`acquire` never returns a slot currently held by another lease. -/
theorem c3_pool_partition (s : PoolState) (hs : Reachable s) :
    (s.free ∪ s.leased = Finset.univ ∧ Disjoint s.free s.leased ∧
      s.free.card + s.leased.card = 12) ∧
    (∀ b, (acquire s).1 = some b → b ∉ s.leased ∧
      b ∉ (acquire s).2.free ∧ b ∈ (acquire s).2.leased) ∧
    (∀ b, b ∈ s.leased → b ∉ s.free ∧
      (cleanFiber s (some b)).free = insert b s.free ∧
      b ∉ (cleanFiber s (some b)).leased) := by
  obtain ⟨hu, hd⟩ := inv_reachable hs
  refine ⟨⟨hu, hd, ?_⟩, ?_, ?_⟩
  · rw [← Finset.card_union_of_disjoint hd, hu]
    simp [POOL_SIZE]
  · intro b hb
    refine ⟨Finset.disjoint_left.mp hd (acquire_mem_free hb), ?_, ?_⟩
    · rw [acquire] at hb ⊢
      by_cases hne : s.free.Nonempty
      · simp only [dif_pos hne] at hb ⊢
        have hb' := Option.some.inj hb
        subst hb'
        exact Finset.not_mem_erase _ _
      · simp [dif_neg hne] at hb
    · rw [acquire] at hb ⊢
      by_cases hne : s.free.Nonempty
      · simp only [dif_pos hne] at hb ⊢
        have hb' := Option.some.inj hb
        subst hb'
        exact Finset.mem_insert_self _ _
      · simp [dif_neg hne] at hb
  · intro b hb
    refine ⟨Finset.disjoint_right.mp hd hb, rfl, ?_⟩
    rw [cleanFiber]
    exact Finset.not_mem_erase b s.leased

/-- witness for C3 at the reachable startup state. -/
theorem c3_witness :
    ((initState.free ∪ initState.leased = Finset.univ ∧
        Disjoint initState.free initState.leased ∧
        initState.free.card + initState.leased.card = 12) ∧
      (∀ b, (acquire initState).1 = some b → b ∉ initState.leased ∧
        b ∉ (acquire initState).2.free ∧ b ∈ (acquire initState).2.leased) ∧
      (∀ b, b ∈ initState.leased → b ∉ initState.free ∧
        (cleanFiber initState (some b)).free = insert b initState.free ∧
        b ∉ (cleanFiber initState (some b)).leased)) :=
  c3_pool_partition initState Relation.ReflTransGen.refl

/-- C5: when the free set is empty at accept time `acquire` yields none
(the connection's `pool_ptr` stays null) and the state is unchanged, and
such a connection is still served to completion through the unbuffered
path: the unpooled response is the full correct 200 response, identical to
the pooled one, and every operation it issues avoids the pool buffers. -/
theorem c5_exhausted_pool_degrades (s : PoolState) (fs : Fs) (path content rest : List Char)
    (hfree : s.free = ∅) (hp : ∀ c ∈ path, c ≠ ' ') (hr : fs path = FsEntry.regular content) :
    acquire s = (none, s) ∧
    servedOut fs false ("GET ".data ++ path ++ ' ' :: rest) =
      some (http_200_hdr content.length ++ content) ∧
    servedOut fs true ("GET ".data ++ path ++ ' ' :: rest) =
      servedOut fs false ("GET ".data ++ path ++ ' ' :: rest) ∧
    (∀ evs, servedEvs fs false ("GET ".data ++ path ++ ' ' :: rest) = some evs →
      ∀ e ∈ evs, e.usesPool = false) := by
  have ht := serve_GET fs true path content rest hp hr
  have hf := serve_GET fs false path content rest hp hr
  refine ⟨?_, ?_, ?_, ?_⟩
  · rw [acquire]
    have : ¬ s.free.Nonempty := by
      rw [hfree]
      simp
    rw [dif_neg this]
  · rw [servedOut, hf]
  · rw [servedOut, servedOut, ht, hf]
  · intro evs hevs
    rw [servedEvs, hf] at hevs
    have hevs' := Option.some.inj hevs
    subst hevs'
    intro e he
    simp only [if_false, List.mem_cons] at he
    rcases he with rfl | he
    · rfl
    rcases he with rfl | he
    · rfl
    rw [List.mem_flatMap] at he
    obtain ⟨c, _, hc⟩ := he
    simp at hc
    rcases hc with rfl | rfl
    · rfl
    · rfl

/-- witness for C5 at an exhausted pool state and a concrete request. -/
theorem c5_witness :
    acquire ⟨∅, Finset.univ⟩ = (none, ⟨∅, Finset.univ⟩) ∧
    servedOut fs1 false ("GET ".data ++ "f".data ++ ' ' :: "HTTP/1.1".data) =
      some (http_200_hdr ("ab".data).length ++ "ab".data) ∧
    servedOut fs1 true ("GET ".data ++ "f".data ++ ' ' :: "HTTP/1.1".data) =
      servedOut fs1 false ("GET ".data ++ "f".data ++ ' ' :: "HTTP/1.1".data) ∧
    (∀ evs, servedEvs fs1 false ("GET ".data ++ "f".data ++ ' ' :: "HTTP/1.1".data) = some evs →
      ∀ e ∈ evs, e.usesPool = false) :=
  c5_exhausted_pool_degrades ⟨∅, Finset.univ⟩ fs1 "f".data "ab".data "HTTP/1.1".data
    rfl (by decide) rfl

/-- C7: for a file of size `k * BUF_SIZE` (k positive) the streaming loop
performs exactly `k` read-then-write cycles in either branch and never
issues a zero-length read or write; for a 0-byte file it issues no body
read or write at all and sends only the 200 header with Content-Length 0. -/
theorem c7_chunking (fs : Fs) (fname fname0 content : List Char) (k : Nat)
    (hr : fs fname = FsEntry.regular content) (hlen : content.length = k * BUF_SIZE)
    (hk : 0 < k) (hr0 : fs fname0 = FsEntry.regular []) :
    sendEvents fs true fname = some (Ev.writev (http_200_hdr (k * BUF_SIZE)).length ::
      (List.range k).flatMap
        (fun i => [Ev.read_fixed (i * BUF_SIZE) BUF_SIZE, Ev.write_fixed BUF_SIZE])) ∧
    sendEvents fs false fname = some (Ev.writev (http_200_hdr (k * BUF_SIZE)).length ::
      (List.range k).flatMap
        (fun i => [Ev.readv (i * BUF_SIZE) BUF_SIZE, Ev.writev BUF_SIZE])) ∧
    (∀ pooled evs, sendEvents fs pooled fname = some evs → ∀ e ∈ evs, 0 < e.len) ∧
    sendEvents fs true fname0 = some [Ev.writev (http_200_hdr 0).length] ∧
    sendEvents fs false fname0 = some [Ev.writev (http_200_hdr 0).length] ∧
    sendOutput fs true fname0 = some (http_200_hdr 0) ∧
    sendOutput fs false fname0 = some (http_200_hdr 0) := by
  have hcyc : sendCycles content.length 0 =
      (List.range k).map (fun i => (i * BUF_SIZE, BUF_SIZE)) := by
    rw [hlen, show k * BUF_SIZE = 0 + k * BUF_SIZE by omega, sendCycles_mul 0 k hk]
    simp
  have hevT := http_send_file_regular_pooled fs fname content hr
  have hevF := http_send_file_regular_plain fs fname content hr
  have hev0T := http_send_file_regular_pooled fs fname0 [] hr0
  have hev0F := http_send_file_regular_plain fs fname0 [] hr0
  rw [hcyc, List.flatMap_map] at hevT hevF
  simp only [List.length_nil, sendCycles_zero, List.flatMap_nil, List.append_nil]
    at hev0T hev0F
  refine ⟨?_, ?_, ?_, ?_, ?_, ?_, ?_⟩
  · rw [sendEvents, hevT, hlen]
  · rw [sendEvents, hevF, hlen]
  · intro pooled evs hevs e he
    cases pooled with
    | true =>
      rw [sendEvents, hevT] at hevs
      have := Option.some.inj hevs
      subst this
      rcases List.mem_cons.mp he with rfl | he
      · exact http_200_hdr_length_pos content.length
      · rw [List.mem_flatMap] at he
        obtain ⟨i, _, hi⟩ := he
        simp at hi
        rcases hi with rfl | rfl
        · simp [Ev.len, BUF_SIZE]
        · simp [Ev.len, BUF_SIZE]
    | false =>
      rw [sendEvents, hevF] at hevs
      have := Option.some.inj hevs
      subst this
      rcases List.mem_cons.mp he with rfl | he
      · exact http_200_hdr_length_pos content.length
      · rw [List.mem_flatMap] at he
        obtain ⟨i, _, hi⟩ := he
        simp at hi
        rcases hi with rfl | rfl
        · simp [Ev.len, BUF_SIZE]
        · simp [Ev.len, BUF_SIZE]
  · rw [sendEvents, hev0T]
  · rw [sendEvents, hev0F]
  · rw [sendOutput, hev0T]
  · rw [sendOutput, hev0F]

/-- witness for C7 at a concrete 1024-byte file and a concrete empty
file. -/
theorem c7_witness :
    sendEvents fs7 true "big".data = some (Ev.writev (http_200_hdr (1 * BUF_SIZE)).length ::
      (List.range 1).flatMap
        (fun i => [Ev.read_fixed (i * BUF_SIZE) BUF_SIZE, Ev.write_fixed BUF_SIZE])) ∧
    sendEvents fs7 false "big".data = some (Ev.writev (http_200_hdr (1 * BUF_SIZE)).length ::
      (List.range 1).flatMap
        (fun i => [Ev.readv (i * BUF_SIZE) BUF_SIZE, Ev.writev BUF_SIZE])) ∧
    (∀ pooled evs, sendEvents fs7 pooled "big".data = some evs → ∀ e ∈ evs, 0 < e.len) ∧
    sendEvents fs7 true "empty".data = some [Ev.writev (http_200_hdr 0).length] ∧
    sendEvents fs7 false "empty".data = some [Ev.writev (http_200_hdr 0).length] ∧
    sendOutput fs7 true "empty".data = some (http_200_hdr 0) ∧
    sendOutput fs7 false "empty".data = some (http_200_hdr 0) :=
  c7_chunking fs7 "big".data "empty".data (List.replicate BUF_SIZE 'a') 1
    rfl (by simp) (by decide) rfl

/-- C10: slot acquisition is deterministic, not arbitrary: whenever the
free set is non-empty the leased slot is its minimum element — which is
exactly what `begin()` of the address-ordered `std::set` yields, because
the slot address map is strictly monotone in the index — and equal free
sets always produce the same choice. -/
theorem c10_min_slot_acquired (base : Nat) (s : PoolState) (h : s.free.Nonempty) :
    (acquire s).1 = some (s.free.min' h) ∧
    (∀ j ∈ s.free, slotAddr base (s.free.min' h) ≤ slotAddr base j ∧
      (slotAddr base (s.free.min' h) = slotAddr base j → s.free.min' h = j)) ∧
    (∀ s2 : PoolState, s.free = s2.free → (acquire s).1 = (acquire s2).1) := by
  refine ⟨?_, ?_, ?_⟩
  · rw [acquire, dif_pos h]
  · intro j hj
    have hle : s.free.min' h ≤ j := Finset.min'_le s.free j hj
    have hlev : (s.free.min' h).val ≤ j.val := hle
    constructor
    · rw [slotAddr, slotAddr]
      exact Nat.add_le_add_left (Nat.mul_le_mul_left BUF_SIZE hlev) base
    · intro heq
      rw [slotAddr, slotAddr] at heq
      have hmul := Nat.add_left_cancel heq
      have hval : (s.free.min' h).val = j.val :=
        Nat.eq_of_mul_eq_mul_left (by simp [BUF_SIZE]) hmul
      exact Fin.ext hval
  · intro s2 hfree
    obtain ⟨f, l⟩ := s
    obtain ⟨f2, l2⟩ := s2
    simp only at hfree
    subst hfree
    by_cases hne : f.Nonempty
    · simp [acquire, dif_pos hne]
    · simp [acquire, dif_neg hne]

/-- witness for C10 at the startup pool state. -/
theorem c10_witness :
    (acquire initState).1 = some (initState.free.min' ⟨slot0, Finset.mem_univ slot0⟩) ∧
    (∀ j ∈ initState.free, slotAddr 4096 (initState.free.min' ⟨slot0, Finset.mem_univ slot0⟩) ≤
        slotAddr 4096 j ∧
      (slotAddr 4096 (initState.free.min' ⟨slot0, Finset.mem_univ slot0⟩) = slotAddr 4096 j →
        initState.free.min' ⟨slot0, Finset.mem_univ slot0⟩ = j)) ∧
    (∀ s2 : PoolState, initState.free = s2.free →
      (acquire initState).1 = (acquire s2).1) :=
  c10_min_slot_acquired 4096 initState ⟨slot0, Finset.mem_univ slot0⟩
